import Mathlib

/-!
Shallow embedding of the PromptLab prompt-versioning core
(`backend/app/storage.py`, `backend/app/api.py`, data model from
`backend/app/models.py`), with proofs about its retention, revert and
error-handling behaviour.

Modelling conventions:
* Python dicts are association lists in key-insertion order; lookup reads
  the first matching key, writing an existing key overwrites its value in
  place, writing a new key appends an entry at the end.
* `datetime.utcnow()` is a logical clock: `Storage.clock` is read as the
  current time and then advanced, so successive timestamps are strictly
  increasing (the monotone-clock reading of the wall clock that the spec
  assumes for retention ordering).
* `uuid4()` for version ids is the fresh-id counter `Storage.nextId`.
* Pydantic models are mutable objects held by reference in the storage
  dict: an in-place field assignment on a prompt obtained from
  `Storage.get_prompt` is immediately visible in the store.  The
  embedding makes this explicit by writing the updated record back into
  the store at the program point of the assignment.
* `storage.update_prompt` is a plain synchronous function; `await`-ing
  its `Prompt` result (as `revert_version` does) raises a `TypeError` in
  Python.  The embedding models this as the `Err.typeError` outcome,
  produced after the in-place prompt mutation has already been
  persisted; the code after that `await` is unreachable.
-/

/-- Modelled from the spec: the `Version` model is imported from
`app.models` by both `api.py` and `storage.py`, but its class definition
is not part of the provided source snapshot.  Fields follow spec §3: an
opaque `version_id` generated at creation, the immutable owning
`prompt_id`, the immutable `content` snapshot, and the immutable
`created_at` timestamp. -/
structure Version where
  version_id : Nat
  prompt_id : String
  content : String
  created_at : Nat
deriving Repr, DecidableEq

/-- The `Prompt` model of `models.py` (`id`, `title`, `content`,
`description`, `collection_id`, `created_at`, `updated_at`).  The field
`current_version_id` is modelled from the spec (§3): `api.py` assigns
`prompt.current_version_id`, but the provided `models.py` snapshot does
not declare the field; the spec defines it as an optional reference that
is `None` until the first version is created. -/
structure Prompt where
  id : String
  title : String
  content : String
  description : Option String
  collection_id : Option String
  current_version_id : Option Nat
  created_at : Nat
  updated_at : Nat
deriving Repr, DecidableEq

/-- The `Collection` model of `models.py`. -/
structure Collection where
  id : String
  name : String
  description : Option String
  created_at : Nat
deriving Repr, DecidableEq

/-- Dict lookup: value of the first entry with the given key. -/
def alGet {β : Type} (l : List (String × β)) (k : String) : Option β :=
  match l with
  | [] => none
  | (k2, b) :: r => if k2 = k then some b else alGet r k

/-- Dict write for an existing key: overwrite the value of the first
entry with the given key; no effect when the key is absent. -/
def alSet {β : Type} (k : String) (b : β) : List (String × β) → List (String × β)
  | [] => []
  | (k2, b2) :: r => if k2 = k then (k2, b) :: r else (k2, b2) :: alSet k b r

/-- Dict insert-or-overwrite (`d[k] = v` in Python): overwrite in place
when the key exists, otherwise append a new entry. -/
def alPut {β : Type} (k : String) (b : β) : List (String × β) → List (String × β)
  | [] => [(k, b)]
  | (k2, b2) :: r => if k2 = k then (k2, b) :: r else (k2, b2) :: alPut k b r

/-- `Storage.save_version`'s dict update: append the version to the list
stored under `prompt_id`, creating the entry (at the end of the dict, as
Python dict insertion does) when it is absent. -/
def bumpVersions (prompt_id : String) (v : Version) :
    List (String × List Version) → List (String × List Version)
  | [] => [(prompt_id, [v])]
  | (k, vs) :: r =>
    if k = prompt_id then (k, vs ++ [v]) :: r
    else (k, vs) :: bumpVersions prompt_id v r

/-- Delete the first version of the list carrying the given id
(`del versions[i]` inside `Storage.delete_version`); `none` when no
entry matches. -/
def removeFirst (vid : Nat) : List Version → Option (List Version)
  | [] => none
  | v :: vs =>
    if v.version_id = vid then some vs
    else (removeFirst vid vs).map (v :: ·)

/-- The scan of `Storage.delete_version`: walk the version dict in
order, delete the first version whose id matches, and report whether a
deletion happened. -/
def deleteScan (vid : Nat) :
    List (String × List Version) → Bool × List (String × List Version)
  | [] => (false, [])
  | (k, vs) :: r =>
    match removeFirst vid vs with
    | some vs2 => (true, (k, vs2) :: r)
    | none =>
      let p := deleteScan vid r
      (p.1, (k, vs) :: p.2)

/-- The scan of `Storage.get_version`: walk the version dict in order
and return the first version whose id matches. -/
def scanFind (vid : Nat) : List (String × List Version) → Option Version
  | [] => none
  | (_, vs) :: r =>
    match vs.find? (fun v => v.version_id == vid) with
    | some v => some v
    | none => scanFind vid r

/-- The in-memory `Storage` of `storage.py`: `_prompts`, `_collections`
and `_versions` dicts, plus the logical clock and fresh-id counter
described in the module comment. -/
structure Storage where
  prompts : List (String × Prompt)
  collections : List (String × Collection)
  versions : List (String × List Version)
  clock : Nat
  nextId : Nat
deriving Repr, DecidableEq

/-- `Storage.get_prompt`. -/
def Storage.get_prompt (s : Storage) (prompt_id : String) : Option Prompt :=
  alGet s.prompts prompt_id

/-- `Storage.create_prompt` (stores the prompt under its own id). -/
def Storage.create_prompt (s : Storage) (p : Prompt) : Storage :=
  { s with prompts := alPut p.id p s.prompts }

/-- `Storage.update_prompt`: `None` and no change when the id is absent,
otherwise overwrite the stored record and return it. -/
def Storage.update_prompt (s : Storage) (prompt_id : String) (p : Prompt) :
    Option Prompt × Storage :=
  if (s.get_prompt prompt_id).isSome then
    (some p, { s with prompts := alSet prompt_id p s.prompts })
  else (none, s)

/-- `Storage.save_version`. -/
def Storage.save_version (s : Storage) (v : Version) : Storage :=
  { s with versions := bumpVersions v.prompt_id v s.versions }

/-- `Storage.get_prompt_versions` (`self._versions.get(prompt_id, [])`). -/
def Storage.get_prompt_versions (s : Storage) (prompt_id : String) : List Version :=
  (alGet s.versions prompt_id).getD []

/-- `Storage.delete_version`. -/
def Storage.delete_version (s : Storage) (version_id : Nat) : Bool × Storage :=
  let p := deleteScan version_id s.versions
  (p.1, { s with versions := p.2 })

/-- `Storage.get_version`. -/
def Storage.get_version (s : Storage) (version_id : Nat) : Option Version :=
  scanFind version_id s.versions

/-- `Storage.clear`: empties the prompt and collection dicts; the
version dict is not touched. -/
def Storage.clear (s : Storage) : Storage :=
  { s with prompts := [], collections := [] }

/-- The empty storage (a fresh `Storage()` with the logical counters at
a given start value). -/
def Storage.empty (t0 : Nat) : Storage :=
  { prompts := [], collections := [], versions := [], clock := t0, nextId := 0 }

/-- Failure outcomes of the version endpoints: `notFound` models
`HTTPException(status_code=404)`; `typeError` models the Python
`TypeError` raised by `await`-ing the non-awaitable result of the
synchronous `storage.update_prompt` inside `revert_version`. -/
inductive Err where
  | notFound
  | typeError
deriving Repr, DecidableEq

/-- Stable ascending sort by `created_at`, as
`versions.sort(key=lambda v: v.created_at)` computes it (Python's sort
is stable, and every stable sort by a key computes the same list). -/
def sortByCreated (vs : List Version) : List Version :=
  vs.insertionSort (fun a b => a.created_at ≤ b.created_at)

/-- The retention block of `create_version` (`api.py` lines 259-266):
fetch the stored list, and when its length exceeds the limit 5, sort it
by `created_at` in place (the list object is aliased by the dict, so the
sorted order is written back) and delete the oldest `count - 5` versions
via `Storage.delete_version`, oldest first. -/
def retentionEnforce (s : Storage) (prompt_id : String) : Storage :=
  let versions := s.get_prompt_versions prompt_id
  if versions.length > 5 then
    let sorted := sortByCreated versions
    let s4 : Storage := { s with versions := alSet prompt_id sorted s.versions }
    (sorted.take (sorted.length - 5)).foldl
      (fun st v => (st.delete_version v.version_id).2) s4
  else s

/-- The `Version` that `create_version` constructs (`api.py` line 252):
`prompt_id` from the fetched prompt object, fresh `version_id`, and the
current time as `created_at`. -/
def freshVersion (s : Storage) (prompt : Prompt) (content : String) : Version :=
  { version_id := s.nextId, prompt_id := prompt.id, content := content,
    created_at := s.clock }

/-- `create_version` lines 252-257 after the prompt lookup: construct
and save the new version (consuming a fresh id and a clock reading),
point the prompt's `current_version_id` at it, and persist the prompt
via `Storage.update_prompt`. -/
def createMid (s : Storage) (prompt_id : String) (prompt : Prompt) (content : String) :
    Storage :=
  ((({ s with nextId := s.nextId + 1, clock := s.clock + 1 } : Storage).save_version
      (freshVersion s prompt content)).update_prompt prompt_id
    { prompt with current_version_id := some (freshVersion s prompt content).version_id }).2

/-- The `create_version` endpoint of `api.py`: 404 when the prompt is
missing; otherwise build a `Version` with a fresh id and the current
time, save it, point the prompt's `current_version_id` at it, persist
the prompt, and enforce the retention policy. -/
def create_version (s : Storage) (prompt_id : String) (content : String) :
    Except Err Version × Storage :=
  match s.get_prompt prompt_id with
  | none => (.error .notFound, s)
  | some prompt =>
    (.ok (freshVersion s prompt content),
     retentionEnforce (createMid s prompt_id prompt content) prompt_id)

/-- The `get_versions` endpoint of `api.py`: 404 when the prompt is
missing, otherwise the stored version list, unfiltered. -/
def get_versions (s : Storage) (prompt_id : String) :
    Except Err (List Version) × Storage :=
  match s.get_prompt prompt_id with
  | none => (.error .notFound, s)
  | some _ => (.ok (s.get_prompt_versions prompt_id), s)

/-- The `revert_version` endpoint of `api.py`: 404 when the prompt is
missing, or when the version id resolves to nothing or to a version of a
different prompt.  Otherwise the handler assigns `prompt.content` and
`prompt.current_version_id` on the prompt object that the storage dict
holds by reference (so the change persists immediately), and then
evaluates `await storage.update_prompt(prompt_id, prompt)`; since
`update_prompt` is synchronous the `await` raises `TypeError`, and the
retention call and the `return` below it never run. -/
def revert_version (s : Storage) (prompt_id : String) (version_id : Nat) :
    Except Err Prompt × Storage :=
  match s.get_prompt prompt_id with
  | none => (.error .notFound, s)
  | some prompt =>
    match s.get_version version_id with
    | none => (.error .notFound, s)
    | some v =>
      if v.prompt_id ≠ prompt_id then (.error .notFound, s)
      else
        let prompt1 := { prompt with
          content := v.content, current_version_id := some v.version_id }
        let s1 := (s.update_prompt prompt_id prompt1).2
        (.error .typeError, s1)

/-- A sequence of `create_version` calls on one prompt, one call per
listed content. -/
def createMany (s : Storage) (prompt_id : String) : List String → Storage
  | [] => s
  | c :: cs => createMany (create_version s prompt_id c).2 prompt_id cs

/-- All versions stored in a version dict, in dict walk order. -/
def vJoin : List (String × List Version) → List Version
  | [] => []
  | (_, vs) :: r => vs ++ vJoin r

/-- Storage well-formedness.  It holds for every state reachable from a
fresh store and is preserved by the endpoints: prompts are keyed by
their own id; version-dict keys are distinct; every stored version sits
under its own `prompt_id`, with id below the fresh-id counter and
timestamp below the clock; each per-prompt list is strictly increasing
in `created_at` (creation order under the monotone clock); and version
ids are globally distinct. -/
def Storage.WF (s : Storage) : Prop :=
  (∀ kp ∈ s.prompts, kp.2.id = kp.1) ∧
  (s.versions.map Prod.fst).Nodup ∧
  (∀ e ∈ s.versions, ∀ v ∈ e.2,
      v.prompt_id = e.1 ∧ v.version_id < s.nextId ∧ v.created_at < s.clock) ∧
  (∀ e ∈ s.versions, e.2.Pairwise (fun a b => a.created_at < b.created_at)) ∧
  ((vJoin s.versions).map Version.version_id).Nodup

theorem alGet_nil {β : Type} {k : String} : alGet ([] : List (String × β)) k = none := rfl

theorem alGet_cons {β : Type} {k2 k : String} {b : β} {r : List (String × β)} :
    alGet ((k2, b) :: r) k = if k2 = k then some b else alGet r k := rfl

theorem alGet_mem {β : Type} {l : List (String × β)} {k : String} {b : β}
    (h : alGet l k = some b) : (k, b) ∈ l := by
  induction l with
  | nil => simp [alGet] at h
  | cons e r ih =>
    obtain ⟨k2, b2⟩ := e
    rw [alGet_cons] at h
    by_cases hk : k2 = k
    · rw [if_pos hk] at h
      cases h
      subst hk
      exact List.mem_cons_self _ _
    · rw [if_neg hk] at h
      exact List.mem_cons_of_mem _ (ih h)

theorem alGet_alSet_some {β : Type} {l : List (String × β)} {k : String} {b0 b : β}
    (h : alGet l k = some b0) : alGet (alSet k b l) k = some b := by
  induction l with
  | nil => simp [alGet] at h
  | cons e r ih =>
    obtain ⟨k2, b2⟩ := e
    rw [alGet_cons] at h
    by_cases hk : k2 = k
    · simp [alSet, hk, alGet_cons]
    · rw [if_neg hk] at h
      simp [alSet, hk, alGet_cons, ih h]

theorem alSet_of_alGet_eq {β : Type} {l : List (String × β)} {k : String} {b : β}
    (h : alGet l k = some b) : alSet k b l = l := by
  induction l with
  | nil => rfl
  | cons e r ih =>
    obtain ⟨k2, b2⟩ := e
    rw [alGet_cons] at h
    by_cases hk : k2 = k
    · rw [if_pos hk] at h
      cases h
      simp [alSet, hk]
    · rw [if_neg hk] at h
      simp [alSet, hk, ih h]

theorem alSet_alSet {β : Type} (l : List (String × β)) (k : String) (b b' : β) :
    alSet k b (alSet k b' l) = alSet k b l := by
  induction l with
  | nil => rfl
  | cons e r ih =>
    obtain ⟨k2, b2⟩ := e
    by_cases hk : k2 = k
    · simp [alSet, hk]
    · simp [alSet, hk, ih]

theorem mem_alSet {β : Type} {l : List (String × β)} {k : String} {b : β} {e : String × β}
    (h : e ∈ alSet k b l) : e ∈ l ∨ e = (k, b) := by
  induction l with
  | nil => simp [alSet] at h
  | cons e2 r ih =>
    obtain ⟨k2, b2⟩ := e2
    by_cases hk : k2 = k
    · subst hk
      simp [alSet] at h
      rcases h with h | h
      · exact Or.inr h
      · exact Or.inl (List.mem_cons_of_mem _ h)
    · simp only [alSet, if_neg hk, List.mem_cons] at h
      rcases h with h | h
      · exact Or.inl (h ▸ List.mem_cons_self _ _)
      · rcases ih h with h2 | h2
        · exact Or.inl (List.mem_cons_of_mem _ h2)
        · exact Or.inr h2

theorem map_fst_alSet {β : Type} (l : List (String × β)) (k : String) (b : β) :
    (alSet k b l).map Prod.fst = l.map Prod.fst := by
  induction l with
  | nil => rfl
  | cons e r ih =>
    obtain ⟨k2, b2⟩ := e
    by_cases hk : k2 = k
    · simp [alSet, hk]
    · simp [alSet, hk, ih]

theorem alGet_bump_self (l : List (String × List Version)) (k : String) (v : Version) :
    alGet (bumpVersions k v l) k = some ((alGet l k).getD [] ++ [v]) := by
  induction l with
  | nil => simp [bumpVersions, alGet]
  | cons e r ih =>
    obtain ⟨k2, vs⟩ := e
    by_cases hk : k2 = k
    · simp [bumpVersions, hk, alGet_cons]
    · simp [bumpVersions, hk, alGet_cons, ih]

theorem mem_bump {l : List (String × List Version)} {k : String} {v : Version}
    {e : String × List Version} (h : e ∈ bumpVersions k v l) :
    e ∈ l ∨ (e.1 = k ∧ ∃ vs, e.2 = vs ++ [v] ∧ (alGet l k = some vs ∨ vs = [])) := by
  induction l with
  | nil =>
    simp only [bumpVersions, List.mem_singleton] at h
    subst h
    exact Or.inr ⟨rfl, [], rfl, Or.inr rfl⟩
  | cons e2 r ih =>
    obtain ⟨k2, vs0⟩ := e2
    by_cases hk : k2 = k
    · subst hk
      simp [bumpVersions] at h
      rcases h with h | h
      · subst h
        exact Or.inr ⟨rfl, vs0, rfl, Or.inl (by simp [alGet_cons])⟩
      · exact Or.inl (List.mem_cons_of_mem _ h)
    · simp only [bumpVersions, if_neg hk, List.mem_cons] at h
      rcases h with h | h
      · exact Or.inl (h ▸ List.mem_cons_self _ _)
      · rcases ih h with h2 | ⟨h2, vs, h3, h4⟩
        · exact Or.inl (List.mem_cons_of_mem _ h2)
        · refine Or.inr ⟨h2, vs, h3, ?_⟩
          rcases h4 with h4 | h4
          · exact Or.inl (by simp [alGet_cons, hk, h4])
          · exact Or.inr h4

theorem alGet_eq_none_of_not_mem {β : Type} {l : List (String × β)} {k : String}
    (h : k ∉ l.map Prod.fst) : alGet l k = none := by
  induction l with
  | nil => rfl
  | cons e r ih =>
    obtain ⟨k2, b2⟩ := e
    simp only [List.map_cons, List.mem_cons] at h
    push_neg at h
    rw [alGet_cons, if_neg (Ne.symm h.1)]
    exact ih h.2

theorem not_mem_of_alGet_eq_none {β : Type} {l : List (String × β)} {k : String}
    (h : alGet l k = none) : k ∉ l.map Prod.fst := by
  induction l with
  | nil => simp
  | cons e r ih =>
    obtain ⟨k2, b2⟩ := e
    rw [alGet_cons] at h
    by_cases hk : k2 = k
    · rw [if_pos hk] at h
      cases h
    · rw [if_neg hk] at h
      simp only [List.map_cons, List.mem_cons]
      push_neg
      exact ⟨fun hh => hk hh.symm, ih h⟩

theorem map_fst_bump_some {l : List (String × List Version)} {k : String} {vs : List Version}
    (v : Version) (h : alGet l k = some vs) :
    (bumpVersions k v l).map Prod.fst = l.map Prod.fst := by
  induction l with
  | nil => simp [alGet] at h
  | cons e r ih =>
    obtain ⟨k2, vs0⟩ := e
    rw [alGet_cons] at h
    by_cases hk : k2 = k
    · simp [bumpVersions, hk]
    · rw [if_neg hk] at h
      simp [bumpVersions, hk, ih h]

theorem map_fst_bump_none {l : List (String × List Version)} {k : String}
    (v : Version) (h : alGet l k = none) :
    (bumpVersions k v l).map Prod.fst = l.map Prod.fst ++ [k] := by
  induction l with
  | nil => rfl
  | cons e r ih =>
    obtain ⟨k2, vs0⟩ := e
    rw [alGet_cons] at h
    by_cases hk : k2 = k
    · rw [if_pos hk] at h
      cases h
    · rw [if_neg hk] at h
      simp [bumpVersions, hk, ih h]

theorem vJoin_cons (k : String) (vs : List Version) (r : List (String × List Version)) :
    vJoin ((k, vs) :: r) = vs ++ vJoin r := rfl

theorem vJoin_bump_perm (l : List (String × List Version)) (k : String) (v : Version) :
    (vJoin (bumpVersions k v l)).Perm (vJoin l ++ [v]) := by
  induction l with
  | nil => simp [bumpVersions, vJoin]
  | cons e r ih =>
    obtain ⟨k2, vs⟩ := e
    by_cases hk : k2 = k
    · simp only [bumpVersions, if_pos hk, vJoin_cons]
      rw [List.append_assoc, List.append_assoc]
      exact List.Perm.append_left vs List.perm_append_comm
    · simp only [bumpVersions, if_neg hk, vJoin_cons]
      rw [List.append_assoc]
      exact List.Perm.append_left vs ih

theorem vJoin_alSet_sublist {l : List (String × List Version)} {k : String}
    {vs vs2 : List Version} (h : alGet l k = some vs) (hsub : vs2.Sublist vs) :
    (vJoin (alSet k vs2 l)).Sublist (vJoin l) := by
  induction l with
  | nil => simp [alGet] at h
  | cons e r ih =>
    obtain ⟨k2, vs0⟩ := e
    rw [alGet_cons] at h
    by_cases hk : k2 = k
    · rw [if_pos hk] at h
      cases h
      simp only [alSet, if_pos hk, vJoin_cons]
      exact hsub.append (List.Sublist.refl _)
    · rw [if_neg hk] at h
      simp only [alSet, if_neg hk, vJoin_cons]
      exact (List.Sublist.refl vs0).append (ih h)

theorem mem_vJoin_of_alGet {l : List (String × List Version)} {k : String}
    {vs : List Version} {w : Version} (h : alGet l k = some vs) (hw : w ∈ vs) :
    w ∈ vJoin l := by
  induction l with
  | nil => simp [alGet] at h
  | cons e r ih =>
    obtain ⟨k2, vs0⟩ := e
    rw [alGet_cons] at h
    by_cases hk : k2 = k
    · rw [if_pos hk] at h
      cases h
      rw [vJoin_cons]
      exact List.mem_append_left _ hw
    · rw [if_neg hk] at h
      rw [vJoin_cons]
      exact List.mem_append_right _ (ih h)

theorem removeFirst_eq_none {vid : Nat} {vs : List Version}
    (h : ∀ v ∈ vs, v.version_id ≠ vid) : removeFirst vid vs = none := by
  induction vs with
  | nil => rfl
  | cons v vs ih =>
    have h1 : v.version_id ≠ vid := h v (List.mem_cons_self _ _)
    have h2 := ih (fun w hw => h w (List.mem_cons_of_mem _ hw))
    simp [removeFirst, h1, h2]

theorem deleteScan_head {l : List (String × List Version)} {k : String}
    {x : Version} {rest : List Version}
    (hget : alGet l k = some (x :: rest))
    (hnd : ((vJoin l).map Version.version_id).Nodup) :
    deleteScan x.version_id l = (true, alSet k rest l) := by
  induction l with
  | nil => simp [alGet] at hget
  | cons e r ih =>
    obtain ⟨k2, vs0⟩ := e
    rw [alGet_cons] at hget
    by_cases hk : k2 = k
    · rw [if_pos hk] at hget
      cases hget
      simp [deleteScan, removeFirst, alSet, hk]
    · rw [if_neg hk] at hget
      have hx : x ∈ vJoin r := mem_vJoin_of_alGet hget (List.mem_cons_self _ _)
      rw [vJoin_cons, List.map_append] at hnd
      rcases List.nodup_append.1 hnd with ⟨h1, h2, hdisj⟩
      have hnone : removeFirst x.version_id vs0 = none := by
        apply removeFirst_eq_none
        intro v hv hvid
        exact hdisj (List.mem_map_of_mem _ hv)
          (hvid ▸ List.mem_map_of_mem Version.version_id hx)
      simp [deleteScan, hnone, alSet, hk, ih hget h2]

theorem delete_version_snd (s : Storage) (vid : Nat) :
    (s.delete_version vid).2 = { s with versions := (deleteScan vid s.versions).2 } := rfl

theorem evict_fold (k : String) :
    ∀ (pre : List Version) (st : Storage) (post : List Version),
      alGet st.versions k = some (pre ++ post) →
      ((vJoin st.versions).map Version.version_id).Nodup →
      pre.foldl (fun st v => (st.delete_version v.version_id).2) st
        = { st with versions := alSet k post st.versions } := by
  intro pre
  induction pre with
  | nil =>
    intro st post hget hnd
    simp only [List.foldl_nil]
    have h0 : alSet k post st.versions = st.versions :=
      alSet_of_alGet_eq (by simpa using hget)
    rw [h0]
  | cons x pr ih =>
    intro st post hget hnd
    rw [List.foldl_cons]
    have hd : deleteScan x.version_id st.versions
        = (true, alSet k (pr ++ post) st.versions) :=
      deleteScan_head (by simpa using hget) hnd
    have hst : (st.delete_version x.version_id).2
        = { st with versions := alSet k (pr ++ post) st.versions } := by
      rw [delete_version_snd, hd]
    rw [hst]
    have hget2 : alGet (alSet k (pr ++ post) st.versions) k = some (pr ++ post) :=
      alGet_alSet_some hget
    have hnd2 : ((vJoin (alSet k (pr ++ post) st.versions)).map Version.version_id).Nodup := by
      apply List.Nodup.sublist _ hnd
      exact (vJoin_alSet_sublist hget (by simp)).map _
    rw [ih _ _ hget2 hnd2]
    rw [alSet_alSet]

theorem foldDel_prompts (pre : List Version) (st : Storage) :
    (pre.foldl (fun st v => (st.delete_version v.version_id).2) st).prompts = st.prompts := by
  induction pre generalizing st with
  | nil => rfl
  | cons x pr ih =>
    rw [List.foldl_cons, ih]
    rfl

theorem foldDel_clock (pre : List Version) (st : Storage) :
    (pre.foldl (fun st v => (st.delete_version v.version_id).2) st).clock = st.clock := by
  induction pre generalizing st with
  | nil => rfl
  | cons x pr ih =>
    rw [List.foldl_cons, ih]
    rfl

theorem foldDel_nextId (pre : List Version) (st : Storage) :
    (pre.foldl (fun st v => (st.delete_version v.version_id).2) st).nextId = st.nextId := by
  induction pre generalizing st with
  | nil => rfl
  | cons x pr ih =>
    rw [List.foldl_cons, ih]
    rfl

theorem retentionEnforce_prompts (st : Storage) (k : String) :
    (retentionEnforce st k).prompts = st.prompts := by
  simp only [retentionEnforce]
  split
  · rw [foldDel_prompts]
  · rfl

theorem retentionEnforce_clock (st : Storage) (k : String) :
    (retentionEnforce st k).clock = st.clock := by
  simp only [retentionEnforce]
  split
  · rw [foldDel_clock]
  · rfl

theorem retentionEnforce_nextId (st : Storage) (k : String) :
    (retentionEnforce st k).nextId = st.nextId := by
  simp only [retentionEnforce]
  split
  · rw [foldDel_nextId]
  · rfl

theorem update_prompt_versions (s : Storage) (k : String) (p : Prompt) :
    ((s.update_prompt k p).2).versions = s.versions := by
  unfold Storage.update_prompt
  split <;> rfl

theorem update_prompt_clock (s : Storage) (k : String) (p : Prompt) :
    ((s.update_prompt k p).2).clock = s.clock := by
  unfold Storage.update_prompt
  split <;> rfl

theorem update_prompt_nextId (s : Storage) (k : String) (p : Prompt) :
    ((s.update_prompt k p).2).nextId = s.nextId := by
  unfold Storage.update_prompt
  split <;> rfl

theorem update_prompt_prompts_of_some {s : Storage} {k : String} {p0 : Prompt} (p : Prompt)
    (h : s.get_prompt k = some p0) :
    ((s.update_prompt k p).2).prompts = alSet k p s.prompts := by
  have hs : (s.get_prompt k).isSome := by rw [h]; rfl
  unfold Storage.update_prompt
  rw [if_pos hs]

theorem update_prompt_get_self {s : Storage} {k : String} {p0 : Prompt} (p : Prompt)
    (h : s.get_prompt k = some p0) :
    ((s.update_prompt k p).2).get_prompt k = some p := by
  have hs : (s.get_prompt k).isSome := by rw [h]; rfl
  unfold Storage.update_prompt
  rw [if_pos hs]
  exact alGet_alSet_some h

theorem createMid_versions (s : Storage) {pid : String} {p : Prompt} (c : String)
    (hid : p.id = pid) :
    (createMid s pid p c).versions = bumpVersions pid (freshVersion s p c) s.versions := by
  unfold createMid
  rw [update_prompt_versions]
  show bumpVersions p.id (freshVersion s p c) s.versions = _
  rw [hid]

theorem createMid_clock (s : Storage) (pid : String) (p : Prompt) (c : String) :
    (createMid s pid p c).clock = s.clock + 1 := by
  unfold createMid
  rw [update_prompt_clock]
  rfl

theorem createMid_nextId (s : Storage) (pid : String) (p : Prompt) (c : String) :
    (createMid s pid p c).nextId = s.nextId + 1 := by
  unfold createMid
  rw [update_prompt_nextId]
  rfl

theorem createMid_prompts {s : Storage} {pid : String} {p : Prompt} (c : String)
    (hp : s.get_prompt pid = some p) :
    (createMid s pid p c).prompts
      = alSet pid { p with current_version_id := some s.nextId } s.prompts := by
  unfold createMid
  exact update_prompt_prompts_of_some _ hp

theorem createMid_get_prompt {s : Storage} {pid : String} {p : Prompt} (c : String)
    (hp : s.get_prompt pid = some p) :
    (createMid s pid p c).get_prompt pid
      = some { p with current_version_id := some s.nextId } := by
  unfold createMid
  exact update_prompt_get_self _ hp

theorem create_version_none {s : Storage} {pid : String} (c : String)
    (hp : s.get_prompt pid = none) :
    create_version s pid c = (.error .notFound, s) := by
  unfold create_version
  rw [hp]

theorem create_version_fst {s : Storage} {pid : String} {p : Prompt} (c : String)
    (hp : s.get_prompt pid = some p) :
    (create_version s pid c).1 = .ok (freshVersion s p c) := by
  unfold create_version
  rw [hp]

theorem create_version_snd {s : Storage} {pid : String} {p : Prompt} (c : String)
    (hp : s.get_prompt pid = some p) :
    (create_version s pid c).2 = retentionEnforce (createMid s pid p c) pid := by
  unfold create_version
  rw [hp]

theorem sortByCreated_sorted_id {vs : List Version}
    (h : vs.Pairwise (fun a b => a.created_at ≤ b.created_at)) :
    sortByCreated vs = vs :=
  List.Sorted.insertionSort_eq h

theorem retentionEnforce_spec {st : Storage} {k : String} {vs : List Version}
    (hget : alGet st.versions k = some vs)
    (hsorted : vs.Pairwise (fun a b => a.created_at ≤ b.created_at))
    (hnd : ((vJoin st.versions).map Version.version_id).Nodup) :
    retentionEnforce st k
      = { st with versions := alSet k (vs.drop (vs.length - 5)) st.versions } := by
  have hv : st.get_prompt_versions k = vs := by
    unfold Storage.get_prompt_versions
    rw [hget]
    rfl
  have hs : sortByCreated vs = vs := sortByCreated_sorted_id hsorted
  simp only [retentionEnforce, hv, hs]
  split
  · have h1 : alSet k vs st.versions = st.versions := alSet_of_alGet_eq hget
    rw [h1]
    have h2 : ({ st with versions := st.versions } : Storage) = st := rfl
    rw [h2]
    exact evict_fold k (vs.take (vs.length - 5)) st (vs.drop (vs.length - 5))
      (by rw [List.take_append_drop]; exact hget) hnd
  · rename_i hle
    have h0 : vs.length - 5 = 0 := Nat.sub_eq_zero_of_le (Nat.le_of_not_lt hle)
    rw [h0, List.drop_zero]
    have h1 : alSet k vs st.versions = st.versions := alSet_of_alGet_eq hget
    rw [h1]

theorem retention_after_save {st : Storage} {k : String} {vs : List Version}
    (hget : alGet st.versions k = some vs)
    (hsorted : vs.Pairwise (fun a b => a.created_at ≤ b.created_at))
    (hnd : ((vJoin st.versions).map Version.version_id).Nodup) :
    (retentionEnforce st k).get_prompt_versions k = vs.drop (vs.length - 5) := by
  rw [retentionEnforce_spec hget hsorted hnd]
  show (alGet (alSet k (vs.drop (vs.length - 5)) st.versions) k).getD [] = _
  rw [alGet_alSet_some hget]
  rfl

theorem old_pairwise_lt {s : Storage} (hwf : s.WF) (k : String) :
    (s.get_prompt_versions k).Pairwise (fun a b => a.created_at < b.created_at) := by
  unfold Storage.get_prompt_versions
  cases h : alGet s.versions k with
  | none => simp
  | some vs => simpa using hwf.2.2.2.1 (k, vs) (alGet_mem h)

theorem old_facts {s : Storage} (hwf : s.WF) (k : String) :
    ∀ v ∈ s.get_prompt_versions k,
      v.prompt_id = k ∧ v.version_id < s.nextId ∧ v.created_at < s.clock := by
  unfold Storage.get_prompt_versions
  cases h : alGet s.versions k with
  | none => simp
  | some vs =>
    intro v hv
    exact hwf.2.2.1 (k, vs) (alGet_mem h) v (by simpa using hv)

theorem appended_pairwise_le {old : List Version} {nv : Version}
    (hlt : old.Pairwise (fun a b => a.created_at < b.created_at))
    (hup : ∀ v ∈ old, v.created_at < nv.created_at) :
    (old ++ [nv]).Pairwise (fun a b => a.created_at ≤ b.created_at) := by
  rw [List.pairwise_append]
  refine ⟨hlt.imp (fun h => le_of_lt h), List.pairwise_singleton _ _, ?_⟩
  intro a ha b hb
  rw [List.mem_singleton] at hb
  subst hb
  exact le_of_lt (hup a ha)

theorem appended_pairwise_lt {old : List Version} {nv : Version}
    (hlt : old.Pairwise (fun a b => a.created_at < b.created_at))
    (hup : ∀ v ∈ old, v.created_at < nv.created_at) :
    (old ++ [nv]).Pairwise (fun a b => a.created_at < b.created_at) := by
  rw [List.pairwise_append]
  refine ⟨hlt, List.pairwise_singleton _ _, ?_⟩
  intro a ha b hb
  rw [List.mem_singleton] at hb
  subst hb
  exact hup a ha

theorem mem_vJoin_elim {l : List (String × List Version)} {w : Version}
    (h : w ∈ vJoin l) : ∃ e ∈ l, w ∈ e.2 := by
  induction l with
  | nil => simp [vJoin] at h
  | cons e r ih =>
    obtain ⟨k2, vs0⟩ := e
    rw [vJoin_cons] at h
    rcases List.mem_append.1 h with h | h
    · exact ⟨(k2, vs0), List.mem_cons_self _ _, h⟩
    · obtain ⟨e2, he2, hw⟩ := ih h
      exact ⟨e2, List.mem_cons_of_mem _ he2, hw⟩

theorem ids_nodup_after_bump {s : Storage} (hwf : s.WF) (k : String) (nv : Version)
    (hfresh : s.nextId ≤ nv.version_id) :
    ((vJoin (bumpVersions k nv s.versions)).map Version.version_id).Nodup := by
  have hperm := (vJoin_bump_perm s.versions k nv).map Version.version_id
  rw [List.Perm.nodup_iff hperm, List.map_append]
  refine List.Nodup.append hwf.2.2.2.2 (List.nodup_singleton _) ?_
  intro a ha hb
  simp only [List.map_cons, List.map_nil, List.mem_singleton] at hb
  subst hb
  obtain ⟨w, hw, hwid⟩ := List.mem_map.1 ha
  obtain ⟨e, he, hwe⟩ := mem_vJoin_elim hw
  have hlt := (hwf.2.2.1 e he w hwe).2.1
  omega

theorem create_version_versions {s : Storage} {pid : String} {p : Prompt} (c : String)
    (hwf : s.WF) (hp : s.get_prompt pid = some p) :
    (create_version s pid c).2.get_prompt_versions pid
      = (s.get_prompt_versions pid ++ [freshVersion s p c]).drop
          ((s.get_prompt_versions pid).length + 1 - 5) := by
  have hid : p.id = pid := hwf.1 (pid, p) (alGet_mem hp)
  rw [create_version_snd c hp]
  have hMv := createMid_versions s c hid
  have hget : alGet (createMid s pid p c).versions pid
      = some (s.get_prompt_versions pid ++ [freshVersion s p c]) := by
    rw [hMv, alGet_bump_self]
    rfl
  have hsorted : (s.get_prompt_versions pid ++ [freshVersion s p c]).Pairwise
      (fun a b => a.created_at ≤ b.created_at) :=
    appended_pairwise_le (old_pairwise_lt hwf pid)
      (fun v hv => (old_facts hwf pid v hv).2.2)
  have hnd : ((vJoin (createMid s pid p c).versions).map Version.version_id).Nodup := by
    rw [hMv]
    exact ids_nodup_after_bump hwf pid _ (Nat.le_refl _)
  rw [retention_after_save hget hsorted hnd]
  simp

theorem WF_mk {pr : List (String × Prompt)} {cols : List (String × Collection)}
    {vss : List (String × List Version)} {ck ni : Nat}
    (h1 : ∀ kp ∈ pr, kp.2.id = kp.1) (h2 : (vss.map Prod.fst).Nodup)
    (h3 : ∀ e ∈ vss, ∀ v ∈ e.2, v.prompt_id = e.1 ∧ v.version_id < ni ∧ v.created_at < ck)
    (h4 : ∀ e ∈ vss, e.2.Pairwise (fun a b => a.created_at < b.created_at))
    (h5 : ((vJoin vss).map Version.version_id).Nodup) :
    (Storage.mk pr cols vss ck ni).WF :=
  ⟨h1, h2, h3, h4, h5⟩

theorem create_version_wf {s : Storage} (pid c : String) (hwf : s.WF) :
    ((create_version s pid c).2).WF := by
  cases hp : s.get_prompt pid with
  | none =>
    rw [create_version_none c hp]
    exact hwf
  | some p =>
    have hid : p.id = pid := hwf.1 (pid, p) (alGet_mem hp)
    rw [create_version_snd c hp]
    have hMv := createMid_versions s c hid
    have hget : alGet (createMid s pid p c).versions pid
        = some (s.get_prompt_versions pid ++ [freshVersion s p c]) := by
      rw [hMv, alGet_bump_self]
      rfl
    have hsorted : (s.get_prompt_versions pid ++ [freshVersion s p c]).Pairwise
        (fun a b => a.created_at ≤ b.created_at) :=
      appended_pairwise_le (old_pairwise_lt hwf pid)
        (fun v hv => (old_facts hwf pid v hv).2.2)
    have hnd : ((vJoin (createMid s pid p c).versions).map Version.version_id).Nodup := by
      rw [hMv]
      exact ids_nodup_after_bump hwf pid _ (Nat.le_refl _)
    rw [retentionEnforce_spec hget hsorted hnd]
    apply WF_mk
    · -- prompts keyed by their own id
      intro kp hkp
      rw [createMid_prompts c hp] at hkp
      rcases mem_alSet hkp with h | h
      · exact hwf.1 kp h
      · subst h
        exact hid
    · -- version-dict keys distinct
      rw [map_fst_alSet, hMv]
      cases halg : alGet s.versions pid with
      | none =>
        rw [map_fst_bump_none _ halg]
        refine List.Nodup.append hwf.2.1 (List.nodup_singleton _) ?_
        intro a ha hb
        rw [List.mem_singleton] at hb
        subst hb
        exact not_mem_of_alGet_eq_none halg ha
      | some vs =>
        rw [map_fst_bump_some _ halg]
        exact hwf.2.1
    · -- per-version facts against the advanced counters
      intro e he v hv
      rw [createMid_clock, createMid_nextId]
      rw [hMv] at he
      rcases mem_alSet he with he2 | he2
      · rcases mem_bump he2 with he3 | ⟨hek, vs, hevs, hvs⟩
        · obtain ⟨h1, h2, h3⟩ := hwf.2.2.1 e he3 v hv
          exact ⟨h1, by omega, by omega⟩
        · rw [hevs] at hv
          rcases List.mem_append.1 hv with hv2 | hv2
          · rcases hvs with hvs | hvs
            · obtain ⟨h1, h2, h3⟩ := hwf.2.2.1 (pid, vs) (alGet_mem hvs) v hv2
              rw [hek]
              exact ⟨h1, by omega, by omega⟩
            · subst hvs
              simp at hv2
          · rw [List.mem_singleton] at hv2
            subst hv2
            rw [hek]
            exact ⟨hid, Nat.lt_succ_self _, Nat.lt_succ_self _⟩
      · subst he2
        have hv2 : v ∈ s.get_prompt_versions pid ++ [freshVersion s p c] :=
          List.drop_subset _ _ hv
        rcases List.mem_append.1 hv2 with hv3 | hv3
        · obtain ⟨h1, h2, h3⟩ := old_facts hwf pid v hv3
          exact ⟨h1, by omega, by omega⟩
        · rw [List.mem_singleton] at hv3
          subst hv3
          exact ⟨hid, Nat.lt_succ_self _, Nat.lt_succ_self _⟩
    · -- per-entry strict ordering by created_at
      intro e he
      rw [hMv] at he
      rcases mem_alSet he with he2 | he2
      · rcases mem_bump he2 with he3 | ⟨hek, vs, hevs, hvs⟩
        · exact hwf.2.2.2.1 e he3
        · rw [hevs]
          rcases hvs with hvs | hvs
          · exact appended_pairwise_lt (hwf.2.2.2.1 (pid, vs) (alGet_mem hvs))
              (fun v hv => (hwf.2.2.1 (pid, vs) (alGet_mem hvs) v hv).2.2)
          · subst hvs
            simp
      · subst he2
        exact List.Pairwise.sublist (List.drop_sublist _ _)
          (appended_pairwise_lt (old_pairwise_lt hwf pid)
            (fun v hv => (old_facts hwf pid v hv).2.2))
    · -- global id distinctness
      exact List.Nodup.sublist
        ((vJoin_alSet_sublist hget (List.drop_sublist _ _)).map _) hnd

theorem retentionEnforce_get_prompt (st : Storage) (k q : String) :
    (retentionEnforce st k).get_prompt q = st.get_prompt q := by
  unfold Storage.get_prompt
  rw [retentionEnforce_prompts]

theorem create_version_get_prompt {s : Storage} {pid : String} {p : Prompt} (c : String)
    (hp : s.get_prompt pid = some p) :
    (create_version s pid c).2.get_prompt pid
      = some { p with current_version_id := some s.nextId } := by
  rw [create_version_snd c hp, retentionEnforce_get_prompt]
  exact createMid_get_prompt c hp

theorem createMany_wf_len (pid : String) (cs : List String) :
    ∀ s : Storage, s.WF → (s.get_prompt_versions pid).length ≤ 5 →
      (createMany s pid cs).WF ∧
        ((createMany s pid cs).get_prompt_versions pid).length ≤ 5 := by
  induction cs with
  | nil =>
    intro s hwf hlen
    exact ⟨hwf, hlen⟩
  | cons c cs ih =>
    intro s hwf hlen
    have hwf2 : ((create_version s pid c).2).WF := create_version_wf pid c hwf
    have hlen2 : (((create_version s pid c).2).get_prompt_versions pid).length ≤ 5 := by
      cases hp : s.get_prompt pid with
      | none =>
        rw [create_version_none c hp]
        exact hlen
      | some p =>
        rw [create_version_versions c hwf hp, List.length_drop]
        simp only [List.length_append, List.length_singleton]
        omega
    exact ih _ hwf2 hlen2

theorem update_prompt_self {s : Storage} {k : String} {p : Prompt}
    (h : s.get_prompt k = some p) : (s.update_prompt k p).2 = s := by
  unfold Storage.update_prompt
  rw [if_pos (by rw [h]; rfl)]
  show ({ s with prompts := alSet k p s.prompts } : Storage) = s
  rw [alSet_of_alGet_eq h]

theorem revert_version_no_prompt {s : Storage} {pid : String} (vid : Nat)
    (hp : s.get_prompt pid = none) :
    revert_version s pid vid = (.error .notFound, s) := by
  unfold revert_version
  rw [hp]

theorem revert_version_no_version {s : Storage} {pid : String} {p : Prompt} (vid : Nat)
    (hp : s.get_prompt pid = some p) (hv : s.get_version vid = none) :
    revert_version s pid vid = (.error .notFound, s) := by
  unfold revert_version
  rw [hp, hv]

theorem revert_version_cross {s : Storage} {pid : String} {p : Prompt} {vid : Nat}
    {v : Version} (hp : s.get_prompt pid = some p) (hv : s.get_version vid = some v)
    (hx : v.prompt_id ≠ pid) :
    revert_version s pid vid = (.error .notFound, s) := by
  unfold revert_version
  simp only [hp, hv]
  rw [if_pos hx]

theorem revert_version_hit {s : Storage} {pid : String} {p : Prompt} {vid : Nat}
    {v : Version} (hp : s.get_prompt pid = some p) (hv : s.get_version vid = some v)
    (hx : v.prompt_id = pid) :
    revert_version s pid vid
      = (.error .typeError,
         (s.update_prompt pid { p with
            content := v.content, current_version_id := some v.version_id }).2) := by
  unfold revert_version
  simp only [hp, hv]
  rw [if_neg (fun hne => hne hx)]

deriving instance DecidableEq for Except

instance (s : Storage) : Decidable s.WF := by
  unfold Storage.WF
  infer_instance

/-- A concrete prompt, created at time 0, used by the concrete-run
theorems below. -/
def p0 : Prompt :=
  { id := "p", title := "t", content := "orig", description := none,
    collection_id := none, current_version_id := none, created_at := 0, updated_at := 0 }

/-- A fresh storage holding `p0`, with the clock at 10 (strictly after
`p0.updated_at = 0`, so a missing `updated_at` refresh is observable). -/
def s10 : Storage := (Storage.empty 10).create_prompt p0

/-- `s10` after `create_version` calls with contents "A" then "B"
(version ids 0 and 1). -/
def sAB : Storage := createMany s10 "p" ["A", "B"]

/-- The prompt record stored in `sAB` (current version id 1). -/
def pAB : Prompt := { p0 with current_version_id := some 1 }

/-- A second prompt, used for the cross-prompt revert check. -/
def q0 : Prompt :=
  { id := "q", title := "t2", content := "qc", description := none,
    collection_id := none, current_version_id := none, created_at := 0, updated_at := 0 }

/-- `sAB` with the second prompt `q0` added (and no versions of its own). -/
def sABq : Storage := sAB.create_prompt q0

/-- C1: for every prompt, after any sequence of `create_version` calls on
it starting from a well-formed state within the bound, the stored version
list (the payload `get_versions` returns) has length at most 5; and when a
`create_version` leaves the count at or below the limit 5, retention
evicts nothing — the stored list is exactly the old list with the new
version appended. -/
theorem listVersions_retention_bound :
    (∀ (s : Storage) (pid : String) (cs : List String), s.WF →
        (s.get_prompt_versions pid).length ≤ 5 →
        ((createMany s pid cs).get_prompt_versions pid).length ≤ 5) ∧
    (∀ (s : Storage) (pid c : String) (p : Prompt), s.WF →
        s.get_prompt pid = some p →
        (s.get_prompt_versions pid).length + 1 ≤ 5 →
        (create_version s pid c).2.get_prompt_versions pid
          = s.get_prompt_versions pid ++ [freshVersion s p c]) := by
  constructor
  · intro s pid cs hwf hlen
    exact (createMany_wf_len pid cs s hwf hlen).2
  · intro s pid c p hwf hp hlen
    rw [create_version_versions c hwf hp]
    have h0 : (s.get_prompt_versions pid).length + 1 - 5 = 0 := by omega
    rw [h0, List.drop_zero]

theorem listVersions_retention_bound_witness :
    ((createMany s10 "p" ["v1", "v2", "v3", "v4", "v5", "v6", "v7"]).get_prompt_versions
        "p").length ≤ 5 ∧
    (create_version s10 "p" "A").2.get_prompt_versions "p"
      = s10.get_prompt_versions "p" ++ [freshVersion s10 p0 "A"] :=
  ⟨listVersions_retention_bound.1 s10 "p" ["v1", "v2", "v3", "v4", "v5", "v6", "v7"]
      (by decide) (by decide),
   listVersions_retention_bound.2 s10 "p" "A" p0 (by decide) (by decide) (by decide)⟩

/-- C2: when `create_version` pushes a prompt past the limit, the stored
list afterwards is the old list with the new version appended, minus its
oldest prefix — exactly the `count - 5` oldest by `created_at` are
evicted, oldest first, and the just-created version (strictly newest
under the monotone clock) survives; concretely, creating "v1".."v7"
sequentially leaves exactly the versions with contents "v3".."v7". -/
theorem create_version_evicts_oldest :
    (∀ (s : Storage) (pid c : String) (p : Prompt), s.WF →
        s.get_prompt pid = some p →
        (create_version s pid c).2.get_prompt_versions pid
          = (s.get_prompt_versions pid ++ [freshVersion s p c]).drop
              ((s.get_prompt_versions pid).length + 1 - 5)) ∧
    ((createMany s10 "p" ["v1", "v2", "v3", "v4", "v5", "v6", "v7"]).get_prompt_versions
        "p").map Version.content = ["v3", "v4", "v5", "v6", "v7"] := by
  constructor
  · intro s pid c p hwf hp
    exact create_version_versions c hwf hp
  · decide

theorem create_version_evicts_oldest_witness :
    (create_version sAB "p" "C").2.get_prompt_versions "p"
      = (sAB.get_prompt_versions "p" ++ [freshVersion sAB pAB "C"]).drop
          ((sAB.get_prompt_versions "p").length + 1 - 5) :=
  create_version_evicts_oldest.1 sAB "p" "C" pAB (by decide) (by decide)

/-- C3: after a successful `create_version`, the stored prompt record is
the old record with `current_version_id` repointed at the returned
version's id and every other field — in particular `content` —
unchanged: creation records history only. -/
theorem create_version_current_pointer :
    ∀ (s : Storage) (pid c : String) (p : Prompt) (v : Version),
      s.get_prompt pid = some p →
      (create_version s pid c).1 = .ok v →
      (create_version s pid c).2.get_prompt pid
        = some { p with current_version_id := some v.version_id } := by
  intro s pid c p v hp hv
  rw [create_version_fst c hp, Except.ok.injEq] at hv
  subst hv
  exact create_version_get_prompt c hp

theorem create_version_current_pointer_witness :
    (create_version s10 "p" "A").2.get_prompt "p"
      = some { p0 with current_version_id := some (freshVersion s10 p0 "A").version_id } :=
  create_version_current_pointer s10 "p" "A" p0 (freshVersion s10 p0 "A")
    (by decide) (by decide)

/-- C4 (code bug): neither `create_version` (api.py lines 252-257) nor
`revert_version` (lines 293-296) refreshes `updated_at` when persisting
the prompt — the stored `updated_at` stays 0 although the clock is at 10
and the revert demonstrably mutates `content` (a content-affecting
mutation), contradicting the spec's "refreshes `updated_at`" steps. -/
theorem versioning_skips_updated_at_refresh :
    s10.clock = 10 ∧ p0.updated_at = 0 ∧
    (((create_version s10 "p" "X").2).get_prompt "p").map Prompt.updated_at = some 0 ∧
    (((revert_version (create_version s10 "p" "X").2 "p" 0).2).get_prompt "p").map
        Prompt.content = some "X" ∧
    (((revert_version (create_version s10 "p" "X").2 "p" 0).2).get_prompt "p").map
        Prompt.updated_at = some 0 := by
  decide

/-- C5 (code bug): with versions "A" (id 0) and "B" (id 1) on prompt
"p", `revert_version` to id 0 does overwrite the stored prompt's
`content` with "A" and repoint `current_version_id` at 0, and a second
revert to id 1 restores "B" — but each call raises `TypeError` (from
`await`-ing the synchronous `storage.update_prompt`) instead of
returning the reverted prompt as the claim states. -/
theorem revert_restores_content_but_raises_type_error :
    (revert_version sAB "p" 0).1 = .error .typeError ∧
    (((revert_version sAB "p" 0).2).get_prompt "p").map Prompt.content = some "A" ∧
    (((revert_version sAB "p" 0).2).get_prompt "p").map Prompt.current_version_id
      = some (some 0) ∧
    (revert_version (revert_version sAB "p" 0).2 "p" 1).1 = .error .typeError ∧
    (((revert_version (revert_version sAB "p" 0).2 "p" 1).2).get_prompt "p").map
        Prompt.content = some "B" := by
  decide

/-- C6 (code bug): the `NotFound` half of the claim holds — unknown
prompt for all three endpoints, unknown version id, and cross-prompt
revert (version 0 belongs to "p", reverted on "q") all fail with 404 —
but a fully valid revert does not succeed: it raises `TypeError` from
the stray `await`. -/
theorem version_endpoints_not_found_cases :
    (create_version sAB "nonexistent" "X").1 = .error .notFound ∧
    (get_versions sAB "nonexistent").1 = .error .notFound ∧
    (revert_version sAB "nonexistent" 0).1 = .error .notFound ∧
    (revert_version sAB "p" 99).1 = .error .notFound ∧
    (revert_version sABq "q" 0).1 = .error .notFound ∧
    (revert_version sAB "p" 0).1 = .error .typeError := by
  decide

/-- C7 (code bug): a valid `revert_version` call fails (`TypeError`) yet
leaves the prompt record mutated — content already overwritten via the
aliased dict entry — so there IS a partial-success state; the `NotFound`
failure paths (unknown version, unknown prompt) do leave the storage
exactly unchanged. -/
theorem revert_failure_leaves_mutated_state :
    (sAB.get_prompt "p").map Prompt.content = some "orig" ∧
    (revert_version sAB "p" 0).1 = .error .typeError ∧
    ((revert_version sAB "p" 0).2.get_prompt "p").map Prompt.content = some "A" ∧
    (revert_version sAB "p" 0).2 ≠ sAB ∧
    (revert_version sAB "p" 99).2 = sAB ∧
    (create_version sAB "nonexistent" "X").2 = sAB := by
  decide

/-- C8: `revert_version` never adds or removes a `Version` — the version
dict is syntactically untouched on every path — and reverting twice in a
row to the same version id leaves the whole state after the second call
identical to the state after the first. -/
theorem revert_preserves_versions_and_idempotent :
    ∀ (s : Storage) (pid : String) (vid : Nat),
      ((revert_version s pid vid).2).versions = s.versions ∧
      (revert_version ((revert_version s pid vid).2) pid vid).2
        = (revert_version s pid vid).2 := by
  intro s pid vid
  cases hp : s.get_prompt pid with
  | none =>
    have h1 := revert_version_no_prompt vid hp
    constructor
    · rw [h1]
    · rw [h1]
      show (revert_version s pid vid).2 = s
      rw [h1]
  | some p =>
    cases hv : s.get_version vid with
    | none =>
      have h1 := revert_version_no_version vid hp hv
      constructor
      · rw [h1]
      · rw [h1]
        show (revert_version s pid vid).2 = s
        rw [h1]
    | some v =>
      by_cases hx : v.prompt_id = pid
      · have h1 := revert_version_hit hp hv hx
        have hp2 : ((s.update_prompt pid { p with
            content := v.content, current_version_id := some v.version_id }).2).get_prompt pid
            = some { p with
              content := v.content, current_version_id := some v.version_id } :=
          update_prompt_get_self _ hp
        have hv2 : ((s.update_prompt pid { p with
            content := v.content, current_version_id := some v.version_id }).2).get_version vid
            = some v := by
          unfold Storage.get_version
          rw [update_prompt_versions]
          exact hv
        constructor
        · rw [h1]
          show ((s.update_prompt pid { p with
            content := v.content, current_version_id := some v.version_id }).2).versions
            = s.versions
          rw [update_prompt_versions]
        · rw [h1]
          show (revert_version ((s.update_prompt pid { p with
              content := v.content, current_version_id := some v.version_id }).2) pid vid).2
            = (s.update_prompt pid { p with
              content := v.content, current_version_id := some v.version_id }).2
          rw [revert_version_hit hp2 hv2 hx]
          exact update_prompt_self hp2
      · have h1 := revert_version_cross hp hv hx
        constructor
        · rw [h1]
        · rw [h1]
          show (revert_version s pid vid).2 = s
          rw [h1]

/-- C9: for an existing prompt, `get_versions` returns exactly the
stored list, unfiltered, with the storage unchanged; a prompt with no
stored versions yields `[]` rather than an error; and in a well-formed
(reachable) state the stored list is strictly increasing in
`created_at`, i.e. insertion order, oldest first, under the monotone
clock. -/
theorem get_versions_returns_store_list :
    ∀ (s : Storage) (pid : String) (p : Prompt),
      s.get_prompt pid = some p →
      get_versions s pid = (.ok (s.get_prompt_versions pid), s) ∧
      (alGet s.versions pid = none → get_versions s pid = (.ok [], s)) ∧
      (s.WF → (s.get_prompt_versions pid).Pairwise
          (fun a b => a.created_at < b.created_at)) := by
  intro s pid p hp
  refine ⟨?_, ?_, ?_⟩
  · unfold get_versions
    rw [hp]
  · intro h
    unfold get_versions
    rw [hp]
    unfold Storage.get_prompt_versions
    rw [h]
    rfl
  · intro hwf
    exact old_pairwise_lt hwf pid

theorem get_versions_returns_store_list_witness :
    get_versions sAB "p" = (.ok (sAB.get_prompt_versions "p"), sAB) ∧
    get_versions s10 "p" = (.ok [], s10) ∧
    (sAB.get_prompt_versions "p").Pairwise (fun a b => a.created_at < b.created_at) :=
  ⟨(get_versions_returns_store_list sAB "p" pAB (by decide)).1,
   (get_versions_returns_store_list s10 "p" p0 (by decide)).2.1 (by decide),
   (get_versions_returns_store_list sAB "p" pAB (by decide)).2.2 (by decide)⟩

/-- C10: `Storage.clear` empties the prompt and collection dicts but
leaves the version dict in place — every prompt's stored version list is
unchanged, so versions survive a reset and become orphaned. -/
theorem clear_leaves_versions_intact :
    ∀ s : Storage,
      (s.clear).prompts = [] ∧ (s.clear).collections = [] ∧
      (s.clear).versions = s.versions ∧
      ∀ pid : String, (s.clear).get_prompt_versions pid = s.get_prompt_versions pid :=
  fun s => ⟨rfl, rfl, rfl, fun _ => rfl⟩
